import Mathlib

/-!
Verification of the Veritasor attestation backend.

The development shallowly embeds the attestation route layer
(src/routes/attestations.ts) and, where the repository snapshot only ships
tests or callers of a component, models that component from the
specification (the Merkle proof engine of §4.1 and the idempotency guard of
§2/§4.2). JavaScript runtime effects are made explicit: the current time,
fresh UUIDs and the outcome of the dynamically loaded chain-anchoring call
are parameters; the mutable module-level record array is threaded as state.
-/

namespace Veritasor

/-! ## Merkle tree (modelled from the spec, §4.1)

The implementation `src/services/merkle` is not part of the snapshot (only
its unit test is), so construction, proof generation and verification are
modelled from the specification: leaf/node digests with domain separation,
left-then-right concatenation, and the odd node at a level carried up
unchanged. The development is parametric in the hash function, which the
spec treats as a fixed external collaborator. -/

/-- Modelled from the spec: the fixed domain-separation tag prefixed to leaf
hash inputs (§2, §4.1); the concrete byte is not pinned down by the spec. -/
def leafDomainTag : String := "00"

/-- Modelled from the spec: the fixed domain-separation tag prefixed to
internal-node hash inputs (§2, §4.1). -/
def nodeDomainTag : String := "01"

/-- Modelled from the spec: leaf digest = Hash(leafDomainTag followed by the
leaf bytes) (§4.1). -/
def leafDigest (hash : String → String) (leaf : String) : String :=
  hash (leafDomainTag ++ leaf)

/-- Modelled from the spec: internal node digest = Hash(nodeDomainTag, then
the left child, then the right child) — concatenation order is part of the
contract (§4.1). -/
def nodeDigest (hash : String → String) (left right : String) : String :=
  hash (nodeDomainTag ++ left ++ right)

/-- Which side of the path node a proof sibling sits on (§3: a proof is an
ordered sequence of sibling digest / position pairs). -/
inductive Side
  | left
  | right
deriving DecidableEq, Repr

/-- Modelled from the spec: one construction level. Adjacent pairs are hashed
left-then-right; at an odd node count the last unmatched node is carried up
unchanged — not re-hashed, not duplicated (§4.1). -/
def combineLevel (hash : String → String) : List String → List String
  | [] => []
  | [x] => [x]
  | x :: y :: rest => nodeDigest hash x y :: combineLevel hash rest

/-- Level lengths halve, rounding up. Stated here, ahead of the remaining
definitions, because the termination arguments of buildRoot and buildProof
rest on it. -/
theorem combineLevel_length (hash : String → String) :
    ∀ l : List String, (combineLevel hash l).length = (l.length + 1) / 2
  | [] => by simp [combineLevel]
  | [_] => by simp [combineLevel]
  | _ :: _ :: rest => by
      simp [combineLevel, combineLevel_length hash rest]
      omega

/-- Modelled from the spec: the root is obtained by folding levels bottom-up
until a single digest remains (§4.1). The empty case is unreachable for the
spec's Build, which rejects an empty input with EmptyInputError. -/
def buildRoot (hash : String → String) : List String → String
  | [] => ""
  | [x] => x
  | x :: y :: rest => buildRoot hash (combineLevel hash (x :: y :: rest))
  termination_by l => l.length
  decreasing_by simp [combineLevel_length]; omega

/-- Modelled from the spec: proof generation. At each level the sibling of
the path node (index with its last bit flipped) is emitted together with its
side; the last node of an odd level has no sibling and contributes nothing at
that level, matching the carry-up-unchanged policy (§4.1). -/
def buildProof (hash : String → String) : List String → Nat → List (String × Side)
  | [], _ => []
  | [_], _ => []
  | x :: y :: rest, i =>
      let lvl := x :: y :: rest
      let sib := if i % 2 = 0 then i + 1 else i - 1
      let step :=
        if sib < lvl.length then
          [(lvl.getD sib "", if i % 2 = 0 then Side.right else Side.left)]
        else []
      step ++ buildProof hash (combineLevel hash lvl) (i / 2)
  termination_by l _ => l.length
  decreasing_by simp [combineLevel_length]; omega

/-- Modelled from the spec: the verifier's fold — each proof element is
combined on its recorded side, using the same left-then-right concatenation
as construction (§4.2 of the component design). -/
def foldProof (hash : String → String) (digest : String) (proof : List (String × Side)) : String :=
  proof.foldl
    (fun acc p =>
      match p.2 with
      | Side.left => nodeDigest hash p.1 acc
      | Side.right => nodeDigest hash acc p.1)
    digest

/-- Modelled from the spec: verifyProof recomputes the leaf digest, folds the
proof sequence, and compares the final digest to the root by exact string
equality; it is pure and never throws (§4.1). -/
def verifyProof (hash : String → String) (leaf : String) (proof : List (String × Side))
    (root : String) (index : Nat) : Bool :=
  let _ := index
  foldProof hash (leafDigest hash leaf) proof == root

/-- Modelled from the spec: getRoot of the tree built over an ordered leaf
sequence (§4.1). -/
def getRoot (hash : String → String) (leaves : List String) : String :=
  buildRoot hash (leaves.map (leafDigest hash))

/-- Modelled from the spec: getProof(index) of the tree built over an ordered
leaf sequence (§4.1). -/
def getProof (hash : String → String) (leaves : List String) (index : Nat) :
    List (String × Side) :=
  buildProof hash (leaves.map (leafDigest hash)) index

/-- Sample hash function used to exercise the parametric Merkle development
on concrete inputs. -/
def sampleHash (s : String) : String := "h(" ++ s ++ ")"

/-! ## Attestation records (src/routes/attestations.ts)

The record type mirrors RouteAttestation. The TypeScript optional fields
become Option; revokedAt is declared `string | null` and optional — both the
absent and the null JavaScript values are modelled as `none`, a distinction
no route behaviour observes. -/

/-- Status of a route attestation: the literal union of the source,
submitted or revoked. -/
inductive AttestationStatus
  | submitted
  | revoked
deriving DecidableEq, Repr

/-- Embedding of the RouteAttestation record of src/routes/attestations.ts. -/
structure RouteAttestation where
  id : String
  businessId : String
  period : String
  attestedAt : String
  merkleRoot : Option String := none
  timestamp : Option Nat := none
  version : Option String := none
  txHash : Option String := none
  status : Option AttestationStatus := none
  revokedAt : Option String := none
deriving DecidableEq, Repr

/-! ## Listing (listByBusinessId, src/routes/attestations.ts lines 100-120)

The source merges the repository items with the module-level overflow array,
de-duplicates through a JavaScript Map keyed by id, and sorts by attestedAt
descending. A Map keeps the position of the first insertion of a key while
updating its value, and Array.from(map.values()) yields values in that key
insertion order; mapSetById reproduces exactly this. Because every key is
its record's id, the map is represented by its value list. -/

/-- One map.set(item.id, item) step of the de-duplication Map: an existing
entry for the id is replaced in place, a new id is appended. -/
def mapSetById (m : List RouteAttestation) (item : RouteAttestation) : List RouteAttestation :=
  if m.any (fun r => r.id == item.id) then
    m.map (fun r => if r.id == item.id then item else r)
  else
    m ++ [item]

/-- The de-duplication loop of listByBusinessId: insert every merged item
into the Map, then read the values back in key insertion order. -/
def dedupeById (items : List RouteAttestation) : List RouteAttestation :=
  items.foldl mapSetById []

/-- Ordering used by the sort comparator of listByBusinessId: a precedes b
when b's attestedAt compares at or below a's — attestedAt descending. The
source comparator is b.attestedAt.localeCompare(a.attestedAt); on the ISO
timestamp strings the records hold, locale comparison agrees with
codepoint order. -/
def attDesc (a b : RouteAttestation) : Prop := b.attestedAt ≤ a.attestedAt

instance : DecidableRel attDesc := fun a b =>
  inferInstanceAs (Decidable (b.attestedAt ≤ a.attestedAt))

instance : IsTotal RouteAttestation attDesc :=
  ⟨fun a b => le_total b.attestedAt a.attestedAt⟩

instance : IsTrans RouteAttestation attDesc :=
  ⟨fun _ _ _ hab hbc => le_trans hbc hab⟩

/-- Embedding of listByBusinessId. The repository behind the capability probe
(listByBusiness or list, both taking the business id) is external and passed
as a function; the module-level localAttestationStore array is passed as a
list. ECMAScript Array.prototype.sort is required to be stable, which the
insertion sort models. -/
def listByBusinessId (repoList : String → List RouteAttestation)
    (localStore : List RouteAttestation) (businessId : String) : List RouteAttestation :=
  let repositoryItems := repoList businessId
  let localItems := localStore.filter (fun item => item.businessId == businessId)
  let merged := repositoryItems ++ localItems
  List.insertionSort attDesc (dedupeById merged)

/-- Embedding of getById: with a repository getById capability the record is
fetched and rejected unless its businessId matches; otherwise the business's
merged list is searched for the id. -/
def getById (repoGetById : Option (String → Option RouteAttestation))
    (repoList : String → List RouteAttestation) (localStore : List RouteAttestation)
    (id businessId : String) : Option RouteAttestation :=
  match repoGetById with
  | some getter =>
      match getter id with
      | none => none
      | some found => if found.businessId == businessId then some found else none
  | none =>
      (listByBusinessId repoList localStore businessId).find? (fun item => item.id == id)

/-! ## List route (attestationsRouter.get, lines 189-228) -/

/-- Filter step of the list route: period must match when given; status
compares against the record status with the source's default of submitted. -/
def applyFilters (period : Option String) (status : Option AttestationStatus)
    (items : List RouteAttestation) : List RouteAttestation :=
  items.filter (fun item =>
    (match period with
     | some p => item.period == p
     | none => true) &&
    (match status with
     | some s => (item.status.getD AttestationStatus.submitted) == s
     | none => true))

/-- Pagination envelope returned by the list route. -/
structure PaginatedResult where
  items : List RouteAttestation
  total : Nat
  totalPages : Nat
deriving DecidableEq, Repr

/-- Pagination step of the list route. Math.ceil(total / limit) over the
naturals is (total + limit - 1) / limit for limit at least 1; page and limit
are 1-indexed and validated positive by the query schema. -/
def paginate (filtered : List RouteAttestation) (page limit : Nat) : PaginatedResult :=
  let total := filtered.length
  let totalPages := max 1 ((total + limit - 1) / limit)
  let start := (page - 1) * limit
  { items := (filtered.drop start).take limit, total := total, totalPages := totalPages }

/-- Embedding of the GET list handler after business resolution: list, filter
after sort, then paginate. -/
def listAttestations (repoList : String → List RouteAttestation)
    (localStore : List RouteAttestation) (businessId : String)
    (period : Option String) (status : Option AttestationStatus)
    (page limit : Nat) : PaginatedResult :=
  paginate (applyFilters period status (listByBusinessId repoList localStore businessId))
    page limit

/-! ## Submit route (attestationsRouter.post, lines 253-301)

Runtime effects are explicit parameters: uuid / recordId stand for the two
randomUUID() calls, nowIso for new Date().toISOString(), nowMs for
Date.now(), and anchorResult for the outcome of the dynamically imported
soroban submitAttestation call — none when the import fails, when the module
lacks the function, or when the call itself throws, all of which the source
catches alike. -/

/-- Body accepted by the submit route after schema validation. -/
structure SubmitPayload where
  businessId : Option String := none
  period : String
  merkleRoot : String
  timestamp : Option Nat := none
  version : String := "1.0.0"
deriving DecidableEq, Repr

/-- Error shape of createHttpError: HTTP status plus error code. -/
structure HttpErrorModel where
  status : Nat
  code : String
deriving DecidableEq, Repr

/-- Successful submit response: HTTP status, persisted record, txHash. -/
structure SubmitSuccess where
  statusCode : Nat
  record : RouteAttestation
  txHash : String
deriving DecidableEq, Repr

/-- Embedding of submitOnChain: the anchored transaction id when the
anchoring call succeeds, else the synthetic pending id built from a fresh
UUID. -/
def submitOnChain (anchorResult : Option String) (uuid : String) : String :=
  match anchorResult with
  | some txHash => txHash
  | none => "pending_" ++ uuid

/-- Resolution of the effective business id: the payload's businessId when
present, else the business resolved for the authenticated user. -/
def resolveBusiness (payload : SubmitPayload) (userBusinessId : Option String) :
    Option String :=
  match payload.businessId with
  | some b => some b
  | none => userBusinessId

/-- The forbidden-submission test of the submit handler: an explicitly
supplied businessId conflicting with the user's resolved business. -/
def forbiddenSubmit (payload : SubmitPayload) (userBusinessId : Option String) : Bool :=
  match payload.businessId, userBusinessId with
  | some pb, some ub => pb != ub
  | _, _ => false

/-- The side-effecting portion of the submit handler: anchor (best effort),
build the record, persist it by appending to the store. -/
def executeSubmit (businessId : String) (payload : SubmitPayload)
    (anchorResult : Option String) (uuid recordId nowIso : String) (nowMs : Nat)
    (store : List RouteAttestation) : SubmitSuccess × List RouteAttestation :=
  let txHash := submitOnChain anchorResult uuid
  let record : RouteAttestation :=
    { id := recordId
      businessId := businessId
      period := payload.period
      merkleRoot := some payload.merkleRoot
      timestamp := some (payload.timestamp.getD nowMs)
      version := some payload.version
      txHash := some txHash
      status := some AttestationStatus.submitted
      revokedAt := none
      attestedAt := nowIso }
  (⟨201, record, txHash⟩, store ++ [record])

/-- Embedding of the POST submit handler after authentication: resolve the
business, reject a conflict, then run the side-effecting portion. -/
def submitAttestationRoute (userBusinessId : Option String) (payload : SubmitPayload)
    (anchorResult : Option String) (uuid recordId nowIso : String) (nowMs : Nat)
    (store : List RouteAttestation) :
    Except HttpErrorModel (SubmitSuccess × List RouteAttestation) :=
  match resolveBusiness payload userBusinessId with
  | none => .error ⟨404, "BUSINESS_NOT_FOUND"⟩
  | some businessId =>
      if forbiddenSubmit payload userBusinessId then
        .error ⟨403, "FORBIDDEN"⟩
      else
        .ok (executeSubmit businessId payload anchorResult uuid recordId nowIso nowMs store)

/-! ## Idempotency guard (modelled from the spec, §2 / §4.2)

The middleware src/middleware/idempotency.js is not part of the snapshot;
the guard is modelled from the specification: a keyed at-most-once execution
cache — the first call under a key executes the side-effecting portion and
caches its outcome, a repeated call with the same key observes the cached
outcome and does not re-execute. -/

/-- Outcome of one submit request run through the idempotency guard: the
response observed by the caller, the store and cache afterwards, and how
many times the side-effecting portion (chain anchoring plus persistence)
actually executed during this request. -/
structure IdemOutcome where
  response : SubmitSuccess
  store : List RouteAttestation
  cache : List (String × SubmitSuccess)
  anchorCalls : Nat
deriving DecidableEq, Repr

/-- Modelled from the spec: at-most-once execution keyed by the idempotency
key. A cached key replays the stored response without touching the store; a
fresh key executes and caches the response. -/
def runIdempotent (cache : List (String × SubmitSuccess)) (key : String)
    (store : List RouteAttestation)
    (execute : List RouteAttestation → SubmitSuccess × List RouteAttestation) :
    IdemOutcome :=
  match cache.find? (fun e => e.1 == key) with
  | some entry => ⟨entry.2, store, cache, 0⟩
  | none =>
      let result := execute store
      ⟨result.1, result.2, cache ++ [(key, result.1)], 1⟩

/-- The submit pipeline under the idempotency guard, for a resolved
business. -/
def submitWithIdempotency (cache : List (String × SubmitSuccess)) (key : String)
    (businessId : String) (payload : SubmitPayload) (anchorResult : Option String)
    (uuid recordId nowIso : String) (nowMs : Nat)
    (store : List RouteAttestation) : IdemOutcome :=
  runIdempotent cache key store
    (executeSubmit businessId payload anchorResult uuid recordId nowIso nowMs)

/-! ## Revocation (revokeAttestation lines 148-167, handleRevoke lines 303-327)

The local-store branch of revokeAttestation (the repository revoke
capability is an external collaborator) finds the first index whose id
matches and replaces that element by a copy with status revoked and
revokedAt set to the current time; written here as the equivalent first-match
recursion. -/

/-- Embedding of revokeAttestation on the local store: none when no record
matches, else the updated record together with the updated store. -/
def revokeAttestation (nowIso : String) :
    List RouteAttestation → String → Option (RouteAttestation × List RouteAttestation)
  | [], _ => none
  | item :: rest, id =>
      if item.id == id then
        let updated :=
          { item with status := some AttestationStatus.revoked, revokedAt := some nowIso }
        some (updated, updated :: rest)
      else
        match revokeAttestation nowIso rest id with
        | none => none
        | some (revokedRec, rest2) => some (revokedRec, item :: rest2)

/-- Embedding of handleRevoke after authentication: resolve the business
(404 when none), look the record up scoped to it (404 when absent), then
revoke on the local store (500 when the revocation finds nothing). -/
def handleRevoke (repoGetById : Option (String → Option RouteAttestation))
    (repoList : String → List RouteAttestation) (localStore : List RouteAttestation)
    (id : String) (userBusinessId : Option String) (nowIso : String) :
    Except HttpErrorModel (RouteAttestation × List RouteAttestation) :=
  match userBusinessId with
  | none => .error ⟨404, "BUSINESS_NOT_FOUND"⟩
  | some businessId =>
      match getById repoGetById repoList localStore id businessId with
      | none => .error ⟨404, "ATTESTATION_NOT_FOUND"⟩
      | some _ =>
          match revokeAttestation nowIso localStore id with
          | none => .error ⟨500, "REVOKE_FAILED"⟩
          | some (revokedRec, store2) => .ok (revokedRec, store2)

/-- Sample record used to exercise the revocation path on concrete input. -/
def revSample : RouteAttestation :=
  { id := "att-1", businessId := "biz-1", period := "2024-01", attestedAt := "t1" }

/-- The sample record as revocation leaves it at time t. -/
def revSampleRevoked (t : String) : RouteAttestation :=
  { revSample with status := some AttestationStatus.revoked, revokedAt := some t }

/-- Uniqueness of ids along a record list — the invariant of the
de-duplication Map, whose keys are exactly the record ids. -/
abbrev uniqueIds (m : List RouteAttestation) : Prop :=
  m.Pairwise (fun a b => a.id ≠ b.id)

/-- Store-side version of a record in a de-duplication conflict. -/
def storeVersionRec : RouteAttestation :=
  { id := "att-7", businessId := "biz-1", period := "2024-01",
    attestedAt := "2024-01-31T00:00:00.000Z" }

/-- Buffer-side version of the same record: same id, different period. -/
def bufferVersionRec : RouteAttestation :=
  { id := "att-7", businessId := "biz-1", period := "2024-02",
    attestedAt := "2024-01-31T00:00:00.000Z" }

/-- Sample record of the tenant biz-1, used for the scoped lookup. -/
def tenantRecSample : RouteAttestation :=
  { id := "att-9", businessId := "biz-1", period := "2024-03", attestedAt := "t9" }

/-- Record of a different tenant sharing the looked-up id. -/
def foreignRecSample : RouteAttestation :=
  { id := "att-9", businessId := "biz-2", period := "2024-03", attestedAt := "t9" }

end Veritasor

namespace Veritasor

theorem combineLevel_getD (hash : String → String) (d : String) :
    ∀ (l : List String) (j : Nat),
      (combineLevel hash l).getD j d =
        if 2 * j + 1 < l.length then
          nodeDigest hash (l.getD (2 * j) d) (l.getD (2 * j + 1) d)
        else if 2 * j < l.length then l.getD (2 * j) d
        else d
  | [], j => by simp [combineLevel]
  | [x], j => by
      match j with
      | 0 => simp [combineLevel]
      | j + 1 => simp [combineLevel, List.getD]
  | x :: y :: rest, j => by
      match j with
      | 0 => simp [combineLevel, List.getD]
      | j + 1 =>
          have ih := combineLevel_getD hash d rest j
          have e1 : 2 * (j + 1) = 2 * j + 1 + 1 := by omega
          show (nodeDigest hash x y :: combineLevel hash rest).getD (j + 1) d = _
          rw [List.getD_cons_succ, ih, e1]
          simp only [List.getD_cons_succ, List.length_cons]
          rcases Nat.lt_or_ge (2 * j + 1) rest.length with hlt | hge
          · rw [if_pos hlt,
              if_pos (show 2 * j + 1 + 1 + 1 < rest.length + 1 + 1 by omega)]
          · rw [if_neg (by omega),
              if_neg (show ¬ (2 * j + 1 + 1 + 1 < rest.length + 1 + 1) by omega)]
            rcases Nat.lt_or_ge (2 * j) rest.length with hlt2 | hge2
            · rw [if_pos hlt2,
                if_pos (show 2 * j + 1 + 1 < rest.length + 1 + 1 by omega)]
            · rw [if_neg (by omega),
                if_neg (show ¬ (2 * j + 1 + 1 < rest.length + 1 + 1) by omega)]

theorem foldProof_append (hash : String → String) (digest : String)
    (p q : List (String × Side)) :
    foldProof hash digest (p ++ q) = foldProof hash (foldProof hash digest p) q := by
  simp [foldProof, List.foldl_append]

/-- Key invariant: folding the proof generated for position `i` of a level
list, starting from that level's entry at `i`, reproduces the root of the
level fold. -/
theorem foldProof_buildProof (hash : String → String) :
    ∀ (l : List String) (i : Nat), i < l.length →
      foldProof hash (l.getD i "") (buildProof hash l i) = buildRoot hash l
  | [], i, h => absurd h (by simp)
  | [x], i, h => by
      have hi : i = 0 := by simpa using h
      subst hi
      simp [buildProof, foldProof, buildRoot, List.getD]
  | x :: y :: rest, i, h => by
      have hlen2 : 2 ≤ (x :: y :: rest).length := by simp
      have hclen : (combineLevel hash (x :: y :: rest)).length =
          ((x :: y :: rest).length + 1) / 2 := combineLevel_length hash _
      have hrec :=
        foldProof_buildProof hash (combineLevel hash (x :: y :: rest)) (i / 2)
          (by rw [hclen]; omega)
      have hroot : buildRoot hash (x :: y :: rest) =
          buildRoot hash (combineLevel hash (x :: y :: rest)) := by
        conv_lhs => rw [buildRoot]
      have hgetc := combineLevel_getD hash "" (x :: y :: rest) (i / 2)
      have hstep :
          foldProof hash ((x :: y :: rest).getD i "")
              (if (if i % 2 = 0 then i + 1 else i - 1) < (x :: y :: rest).length then
                [((x :: y :: rest).getD (if i % 2 = 0 then i + 1 else i - 1) "",
                  if i % 2 = 0 then Side.right else Side.left)]
              else []) =
            (combineLevel hash (x :: y :: rest)).getD (i / 2) "" := by
        rcases Nat.mod_two_eq_zero_or_one i with hpar | hpar
        · have hsel : (if i % 2 = 0 then i + 1 else i - 1) = i + 1 := if_pos hpar
          have hside : (if i % 2 = 0 then Side.right else Side.left) = Side.right :=
            if_pos hpar
          have h2i : 2 * (i / 2) = i := by omega
          rcases Nat.lt_or_ge (i + 1) (x :: y :: rest).length with hsib | hsib
          · rw [hsel, hside, if_pos hsib, hgetc,
              if_pos (show 2 * (i / 2) + 1 < (x :: y :: rest).length by omega), h2i]
            simp [foldProof]
          · rw [hsel,
              if_neg (show ¬ (i + 1 < (x :: y :: rest).length) by omega), hgetc,
              if_neg (show ¬ (2 * (i / 2) + 1 < (x :: y :: rest).length) by omega),
              if_pos (show 2 * (i / 2) < (x :: y :: rest).length by omega), h2i]
            simp [foldProof]
        · have hone : ¬ i % 2 = 0 := by omega
          have hsel : (if i % 2 = 0 then i + 1 else i - 1) = i - 1 := if_neg hone
          have hside : (if i % 2 = 0 then Side.right else Side.left) = Side.left :=
            if_neg hone
          have h2ia : 2 * (i / 2) + 1 = i := by omega
          have h2ib : 2 * (i / 2) = i - 1 := by omega
          rw [hsel, hside,
            if_pos (show i - 1 < (x :: y :: rest).length by omega), hgetc,
            if_pos (show 2 * (i / 2) + 1 < (x :: y :: rest).length by omega), h2ia, h2ib]
          simp [foldProof]
      conv_lhs => rw [buildProof]
      rw [foldProof_append, hstep, hrec, hroot]
  termination_by l _ _ => l.length
  decreasing_by simp [combineLevel_length]; omega

/-- C3: for every non-empty ordered leaf sequence L and every index i in
[0, length of L), verifyProof applied to the leaf L[i], the proof produced by
getProof(i) on the tree built from L, that tree's root, and i returns true. -/
theorem merkle_proof_sound (hash : String → String) (leaves : List String) (i : Nat)
    (hi : i < leaves.length) :
    verifyProof hash (leaves.getD i "") (getProof hash leaves i) (getRoot hash leaves) i
      = true := by
  have hlen : i < (leaves.map (leafDigest hash)).length := by simpa using hi
  have hmap : (leaves.map (leafDigest hash)).getD i "" =
      leafDigest hash (leaves.getD i "") := by
    rw [List.getD_eq_getElem _ _ hlen, List.getD_eq_getElem _ _ hi, List.getElem_map]
  have hfold := foldProof_buildProof hash (leaves.map (leafDigest hash)) i hlen
  rw [hmap] at hfold
  unfold verifyProof getProof getRoot
  rw [hfold]
  simp

/-- Witness for C3 at the spec's concrete scenario A: leaves a, b, c, d, e
with index 2. -/
theorem merkle_proof_sound_witness :
    2 < (["a", "b", "c", "d", "e"] : List String).length ∧
      verifyProof sampleHash ((["a", "b", "c", "d", "e"] : List String).getD 2 "")
        (getProof sampleHash ["a", "b", "c", "d", "e"] 2)
        (getRoot sampleHash ["a", "b", "c", "d", "e"]) 2 = true :=
  ⟨by decide, merkle_proof_sound sampleHash ["a", "b", "c", "d", "e"] 2 (by decide)⟩

/-- C1: when the chain-anchoring call fails, is unavailable or cannot be
loaded (anchorResult = none), submit does not fail: it assigns the synthetic
transaction id pending_ followed by a fresh UUID, persists the record with
status submitted, and responds 201 with that txHash. -/
theorem submit_chain_failure_degrades (userBusinessId : Option String)
    (payload : SubmitPayload) (uuid recordId nowIso : String) (nowMs : Nat)
    (store : List RouteAttestation) (b : String)
    (hres : resolveBusiness payload userBusinessId = some b)
    (hforbid : forbiddenSubmit payload userBusinessId = false) :
    ∃ rec : RouteAttestation,
      submitAttestationRoute userBusinessId payload none uuid recordId nowIso nowMs store =
        .ok (⟨201, rec, "pending_" ++ uuid⟩, store ++ [rec]) ∧
      rec.status = some AttestationStatus.submitted ∧
      rec.txHash = some ("pending_" ++ uuid) := by
  refine ⟨(executeSubmit b payload none uuid recordId nowIso nowMs store).1.record,
    ?_, ?_, ?_⟩
  · unfold submitAttestationRoute
    rw [hres, hforbid]
    simp [executeSubmit, submitOnChain]
  · simp [executeSubmit]
  · simp [executeSubmit, submitOnChain]

/-- Witness for C1: a submit with no explicit businessId, a resolved user
business, and an unavailable anchoring module. -/
theorem submit_chain_failure_degrades_witness :
    resolveBusiness { period := "2024-01", merkleRoot := "root-1" } (some "biz-1") =
        some "biz-1" ∧
    forbiddenSubmit { period := "2024-01", merkleRoot := "root-1" } (some "biz-1") = false ∧
    ∃ rec : RouteAttestation,
      submitAttestationRoute (some "biz-1") { period := "2024-01", merkleRoot := "root-1" }
          none "uuid-1" "rec-1" "2024-02-01T00:00:00.000Z" 5 [] =
        .ok (⟨201, rec, "pending_" ++ "uuid-1"⟩, [] ++ [rec]) ∧
      rec.status = some AttestationStatus.submitted ∧
      rec.txHash = some ("pending_" ++ "uuid-1") :=
  ⟨rfl, rfl,
    submit_chain_failure_degrades (some "biz-1") { period := "2024-01", merkleRoot := "root-1" }
      "uuid-1" "rec-1" "2024-02-01T00:00:00.000Z" 5 [] "biz-1" rfl rfl⟩

/-- C2: two submit calls with the same idempotency key and payload observe
the identical response with the same txHash, execute the side-effecting
anchoring portion exactly once in total, and leave exactly one stored
record. -/
theorem submit_idempotent_per_key (cache : List (String × SubmitSuccess)) (key : String)
    (businessId : String) (payload : SubmitPayload) (anchorResult : Option String)
    (uuid recordId nowIso : String) (nowMs : Nat) (store : List RouteAttestation)
    (hfresh : cache.find? (fun e => e.1 == key) = none) :
    let first := submitWithIdempotency cache key businessId payload anchorResult uuid
      recordId nowIso nowMs store
    let second := submitWithIdempotency first.cache key businessId payload anchorResult uuid
      recordId nowIso nowMs first.store
    second.response = first.response ∧
    second.response.txHash = first.response.txHash ∧
    second.store = first.store ∧
    first.anchorCalls = 1 ∧ second.anchorCalls = 0 ∧
    first.store = store ++ [first.response.record] := by
  intro first second
  have hsecondCache : first.cache = cache ++
      [(key, (executeSubmit businessId payload anchorResult uuid recordId nowIso nowMs
        store).1)] := by
    simp [first, submitWithIdempotency, runIdempotent, hfresh]
  have hfind : first.cache.find? (fun e => e.1 == key) =
      some (key, (executeSubmit businessId payload anchorResult uuid recordId nowIso nowMs
        store).1) := by
    rw [hsecondCache, List.find?_append, hfresh]
    simp
  constructor
  · simp [second, first, submitWithIdempotency, runIdempotent, hfind, hfresh]
  constructor
  · simp [second, first, submitWithIdempotency, runIdempotent, hfind, hfresh]
  constructor
  · simp [second, first, submitWithIdempotency, runIdempotent, hfind, hfresh]
  constructor
  · simp [first, submitWithIdempotency, runIdempotent, hfresh]
  constructor
  · simp [second, first, submitWithIdempotency, runIdempotent, hfind, hfresh]
  · simp [first, submitWithIdempotency, runIdempotent, hfresh, executeSubmit]

/-- Witness for C2: a fresh cache, a concrete payload, and an unavailable
anchor; both calls under key k1. -/
theorem submit_idempotent_per_key_witness :
    ([] : List (String × SubmitSuccess)).find? (fun e => e.1 == "k1") = none ∧
    (let first := submitWithIdempotency [] "k1" "biz-1"
        { period := "2024-01", merkleRoot := "root-1" } none "uuid-1" "rec-1"
        "2024-02-01T00:00:00.000Z" 5 []
     let second := submitWithIdempotency first.cache "k1" "biz-1"
        { period := "2024-01", merkleRoot := "root-1" } none "uuid-1" "rec-1"
        "2024-02-01T00:00:00.000Z" 5 first.store
     second.response = first.response ∧
     second.response.txHash = first.response.txHash ∧
     second.store = first.store ∧
     first.anchorCalls = 1 ∧ second.anchorCalls = 0 ∧
     first.store = [] ++ [first.response.record]) :=
  ⟨rfl, submit_idempotent_per_key [] "k1" "biz-1"
    { period := "2024-01", merkleRoot := "root-1" } none "uuid-1" "rec-1"
    "2024-02-01T00:00:00.000Z" 5 [] rfl⟩

/-- Frame lemma for revocation: a successful revocation returns the first
store record whose id matches, updated to status revoked with revokedAt set,
and every other field untouched. -/
theorem revokeAttestation_some (nowIso id : String) :
    ∀ (store : List RouteAttestation) (r : RouteAttestation)
      (store2 : List RouteAttestation),
      revokeAttestation nowIso store id = some (r, store2) →
      ∃ orig, orig ∈ store ∧ orig.id = id ∧
        r = { orig with status := some AttestationStatus.revoked,
                        revokedAt := some nowIso }
  | [], r, store2 => by simp [revokeAttestation]
  | item :: rest, r, store2 => by
      intro h
      rw [revokeAttestation] at h
      by_cases hid : item.id == id
      · rw [if_pos hid] at h
        obtain ⟨h1, h2⟩ := Prod.mk.injEq .. ▸ Option.some.inj h
        exact ⟨item, by simp, by simpa using hid, h1.symm⟩
      · rw [if_neg hid] at h
        cases hrec : revokeAttestation nowIso rest id with
        | none => rw [hrec] at h; cases h
        | some pr =>
            obtain ⟨r2, rest2⟩ := pr
            rw [hrec] at h
            obtain ⟨h1, h2⟩ := Prod.mk.injEq .. ▸ Option.some.inj h
            obtain ⟨orig, ho1, ho2, ho3⟩ :=
              revokeAttestation_some nowIso id rest r2 rest2 hrec
            exact ⟨orig, by simp [ho1], ho2, h1 ▸ ho3⟩

/-- Failure lemma for revocation: when no store record has the id, the
revocation reports nothing to revoke. -/
theorem revokeAttestation_none (nowIso id : String) :
    ∀ store : List RouteAttestation, (∀ x ∈ store, x.id ≠ id) →
      revokeAttestation nowIso store id = none
  | [], _ => by simp [revokeAttestation]
  | item :: rest, h => by
      rw [revokeAttestation]
      have hid : ¬ (item.id == id) = true := by
        simp only [beq_iff_eq]
        exact h item (by simp)
      rw [if_neg hid, revokeAttestation_none nowIso id rest
        (fun x hx => h x (by simp [hx]))]

/-- C9: a successful revoke sets status to revoked and a non-null revokedAt
and leaves every other field of the record unchanged, and revoking an id
with no matching record fails as not found: the handler answers 404
ATTESTATION_NOT_FOUND when the scoped lookup misses. -/
theorem revoke_frame_and_missing (store : List RouteAttestation) (id nowIso : String)
    (r : RouteAttestation) (store2 : List RouteAttestation)
    (repoGetById : Option (String → Option RouteAttestation))
    (repoList : String → List RouteAttestation) (localStore : List RouteAttestation)
    (b : String) :
    (revokeAttestation nowIso store id = some (r, store2) →
       r.status = some AttestationStatus.revoked ∧ r.revokedAt = some nowIso ∧
       ∃ orig, orig ∈ store ∧ orig.id = id ∧
         r = { orig with status := some AttestationStatus.revoked,
                         revokedAt := some nowIso }) ∧
    ((∀ x ∈ store, x.id ≠ id) → revokeAttestation nowIso store id = none) ∧
    (getById repoGetById repoList localStore id b = none →
       handleRevoke repoGetById repoList localStore id (some b) nowIso =
         .error ⟨404, "ATTESTATION_NOT_FOUND"⟩) := by
  refine ⟨fun h => ?_, revokeAttestation_none nowIso id store, fun h => ?_⟩
  · obtain ⟨orig, ho1, ho2, ho3⟩ := revokeAttestation_some nowIso id store r store2 h
    exact ⟨by rw [ho3], by rw [ho3], orig, ho1, ho2, ho3⟩
  · simp [handleRevoke, h]

/-- Witness for C9: a one-record store revoked successfully, and a miss on an
empty repository and store answered 404. -/
theorem revoke_frame_and_missing_witness :
    (revokeAttestation "2024-03-01T00:00:00.000Z" [revSample] "att-1" =
      some (revSampleRevoked "2024-03-01T00:00:00.000Z",
        [revSampleRevoked "2024-03-01T00:00:00.000Z"])) ∧
    (∃ orig, orig ∈ [revSample] ∧ orig.id = "att-1" ∧
      revSampleRevoked "2024-03-01T00:00:00.000Z" =
        { orig with status := some AttestationStatus.revoked,
                    revokedAt := some "2024-03-01T00:00:00.000Z" }) ∧
    handleRevoke none (fun _ => []) [] "missing" (some "biz-1")
        "2024-03-01T00:00:00.000Z" =
      .error ⟨404, "ATTESTATION_NOT_FOUND"⟩ :=
  ⟨by decide,
    ((revoke_frame_and_missing [revSample] "att-1" "2024-03-01T00:00:00.000Z"
        (revSampleRevoked "2024-03-01T00:00:00.000Z")
        [revSampleRevoked "2024-03-01T00:00:00.000Z"]
        none (fun _ => []) [] "biz-1").1 (by decide)).2.2,
    (revoke_frame_and_missing [] "missing" "2024-03-01T00:00:00.000Z"
        revSample [] none (fun _ => []) [] "biz-1").2.2 (by decide)⟩

/-- Repetition lemma for revocation: a second revocation of the same id on
the updated store succeeds again and overwrites revokedAt with the new
time. -/
theorem revokeAttestation_twice (id now1 now2 : String) :
    ∀ (store : List RouteAttestation) (r1 : RouteAttestation)
      (store1 : List RouteAttestation),
      revokeAttestation now1 store id = some (r1, store1) →
      ∃ store2, revokeAttestation now2 store1 id =
        some ({ r1 with revokedAt := some now2 }, store2)
  | [], r1, store1 => by simp [revokeAttestation]
  | item :: rest, r1, store1 => by
      intro h
      rw [revokeAttestation] at h
      by_cases hid : item.id == id
      · rw [if_pos hid] at h
        obtain ⟨h1, h2⟩ := Prod.mk.injEq .. ▸ Option.some.inj h
        subst h1
        rw [← h2, revokeAttestation, if_pos (by simpa using hid)]
        exact ⟨_, rfl⟩
      · rw [if_neg hid] at h
        cases hrec : revokeAttestation now1 rest id with
        | none => rw [hrec] at h; cases h
        | some pr =>
            obtain ⟨r2, rest2⟩ := pr
            rw [hrec] at h
            obtain ⟨h1, h2⟩ := Prod.mk.injEq .. ▸ Option.some.inj h
            subst h1
            obtain ⟨rest3, h3⟩ := revokeAttestation_twice id now1 now2 rest r2 rest2 hrec
            refine ⟨item :: rest3, ?_⟩
            rw [← h2, revokeAttestation, if_neg hid, h3]

/-- C10: revoking an already revoked record succeeds — the second revocation
returns the record still revoked but with revokedAt overwritten by the
second call's time, so revoke is not a pure no-op on revoked records. -/
theorem revoke_already_revoked (store : List RouteAttestation) (id now1 now2 : String)
    (r1 : RouteAttestation) (store1 : List RouteAttestation)
    (h1 : revokeAttestation now1 store id = some (r1, store1)) :
    r1.status = some AttestationStatus.revoked ∧ r1.revokedAt = some now1 ∧
    ∃ store2, revokeAttestation now2 store1 id =
        some ({ r1 with revokedAt := some now2 }, store2) ∧
      ({ r1 with revokedAt := some now2 } : RouteAttestation).status =
        some AttestationStatus.revoked ∧
      ({ r1 with revokedAt := some now2 } : RouteAttestation).revokedAt = some now2 := by
  obtain ⟨orig, _, _, ho3⟩ := revokeAttestation_some now1 id store r1 store1 h1
  obtain ⟨store2, h2⟩ := revokeAttestation_twice id now1 now2 store r1 store1 h1
  exact ⟨by rw [ho3], by rw [ho3], store2, h2, by rw [ho3], rfl⟩

/-- Witness for C10: revoking the same one-record store twice with two
different timestamps. -/
theorem revoke_already_revoked_witness :
    (revokeAttestation "t-first" [revSample] "att-1" =
      some (revSampleRevoked "t-first", [revSampleRevoked "t-first"])) ∧
    (∃ store2, revokeAttestation "t-second" [revSampleRevoked "t-first"] "att-1" =
      some ({ revSampleRevoked "t-first" with revokedAt := some "t-second" }, store2)) :=
  ⟨by decide,
    ((revoke_already_revoked [revSample] "att-1" "t-first" "t-second"
        (revSampleRevoked "t-first") [revSampleRevoked "t-first"]
        (by decide)).2.2).imp (fun _ h => h.1)⟩

/-- Replacing the entry of an id inside the Map leaves the entries of every
other id untouched. -/
theorem map_replace_filter_other (item : RouteAttestation) (k : String)
    (hk : ¬ item.id = k) :
    ∀ m : List RouteAttestation,
      ((m.map (fun r => if r.id == item.id then item else r)).filter
          (fun r => r.id == k)) = m.filter (fun r => r.id == k)
  | [] => by simp
  | e :: m2 => by
      have ih := map_replace_filter_other item k hk m2
      rw [List.map_cons]
      by_cases he : (e.id == item.id) = true
      · have h1 : ¬ (item.id == k) = true := by simp [hk]
        have h2 : ¬ (e.id == k) = true := by
          have he2 : e.id = item.id := by simpa using he
          simp [he2, hk]
        rw [if_pos he]
        simp only [List.filter_cons, if_neg h1, if_neg h2, ih]
      · rw [if_neg he]
        by_cases hek : (e.id == k) = true
        · simp only [List.filter_cons, if_pos hek, ih]
        · simp only [List.filter_cons, if_neg hek, ih]

/-- Replacing the entry of the inserted id inside a Map with unique keys that
contains the id yields exactly the new entry under that id. -/
theorem map_replace_filter_self (item : RouteAttestation) :
    ∀ m : List RouteAttestation, uniqueIds m →
      m.any (fun r => r.id == item.id) = true →
      ((m.map (fun r => if r.id == item.id then item else r)).filter
          (fun r => r.id == item.id)) = [item]
  | [], _, h => by simp at h
  | e :: m2, hu, h => by
      obtain ⟨hne, hu2⟩ := List.pairwise_cons.mp hu
      rw [List.map_cons]
      by_cases he : (e.id == item.id) = true
      · have hit : (item.id == item.id) = true := by simp
        have htail : (m2.map (fun r => if r.id == item.id then item else r)).filter
            (fun r => r.id == item.id) = [] := by
          apply List.filter_eq_nil_iff.mpr
          intro y hy
          obtain ⟨x, hx, hxe⟩ := List.mem_map.mp hy
          have heq : e.id = item.id := by simpa using he
          have hxid : ¬ x.id = item.id := fun hcon => (heq ▸ hne x hx) hcon.symm
          rw [if_neg (by simpa using hxid)] at hxe
          subst hxe
          simpa using hxid
        rw [if_pos he]
        simp only [List.filter_cons, if_pos hit, htail]
      · rw [if_neg he]
        simp only [List.filter_cons, if_neg he]
        refine map_replace_filter_self item m2 hu2 ?_
        rcases List.any_eq_true.mp h with ⟨x, hx, hxp⟩
        rcases List.mem_cons.mp hx with rfl | hx2
        · exact absurd hxp he
        · exact List.any_eq_true.mpr ⟨x, hx2, hxp⟩

/-- A Map set keeps key uniqueness. -/
theorem mapSetById_uniqueIds (m : List RouteAttestation) (item : RouteAttestation)
    (hu : uniqueIds m) : uniqueIds (mapSetById m item) := by
  unfold mapSetById
  split
  · refine List.Pairwise.map _ ?_ hu
    intro a b hab
    by_cases ha : (a.id == item.id) = true
    · by_cases hb : (b.id == item.id) = true
      · refine absurd ?_ hab
        rw [beq_iff_eq] at ha hb
        rw [ha, hb]
      · rw [if_pos ha, if_neg hb]
        rw [beq_iff_eq] at ha
        rw [← ha]
        exact hab
    · by_cases hb : (b.id == item.id) = true
      · rw [if_neg ha, if_pos hb]
        rw [beq_iff_eq] at hb
        rw [← hb]
        exact hab
      · rw [if_neg ha, if_neg hb]
        exact hab
  · rename_i hany
    refine List.pairwise_append.mpr ⟨hu, List.pairwise_singleton _ _, fun a ha b hb => ?_⟩
    have hb2 : b = item := by simpa using hb
    subst hb2
    intro hcon
    exact hany (List.any_eq_true.mpr ⟨a, ha, by simp [hcon]⟩)

/-- A Map set leaves exactly the new entry under the inserted id. -/
theorem mapSetById_filter_self (m : List RouteAttestation) (item : RouteAttestation)
    (hu : uniqueIds m) :
    (mapSetById m item).filter (fun r => r.id == item.id) = [item] := by
  unfold mapSetById
  split
  · exact map_replace_filter_self item m hu (by assumption)
  · rename_i hany
    rw [List.filter_append]
    have h1 : m.filter (fun r => r.id == item.id) = [] := by
      refine List.filter_eq_nil_iff.mpr fun x hx hcon => ?_
      exact hany (List.any_eq_true.mpr ⟨x, hx, hcon⟩)
    rw [h1]
    simp

/-- A Map set leaves the entries of every other id untouched. -/
theorem mapSetById_filter_other (m : List RouteAttestation) (item : RouteAttestation)
    (k : String) (hk : ¬ item.id = k) :
    (mapSetById m item).filter (fun r => r.id == k) = m.filter (fun r => r.id == k) := by
  unfold mapSetById
  split
  · exact map_replace_filter_other item k hk m
  · rw [List.filter_append]
    have h1 : [item].filter (fun r => r.id == k) = [] := by simp [hk]
    rw [h1, List.append_nil]

/-- Folding the Map over a record sequence keys each id to the last record
of the sequence bearing it; ids absent from the sequence keep their prior
entry. -/
theorem foldl_mapSetById_filter (k : String) :
    ∀ (items m : List RouteAttestation), uniqueIds m →
      (items.foldl mapSetById m).filter (fun r => r.id == k) =
        match (items.filter (fun r => r.id == k)).getLast? with
        | none => m.filter (fun r => r.id == k)
        | some r => [r]
  | [], m, hu => by simp
  | item :: rest, m, hu => by
      have ih := foldl_mapSetById_filter k rest (mapSetById m item)
        (mapSetById_uniqueIds m item hu)
      rw [List.foldl_cons, ih]
      by_cases hid : (item.id == k) = true
      · have hk : item.id = k := by simpa using hid
        simp only [List.filter_cons, if_pos hid]
        cases hfil : rest.filter (fun r => r.id == k) with
        | nil =>
            rw [← hk]
            exact mapSetById_filter_self m item hu
        | cons y ys =>
            rw [List.getLast?_cons_cons]
            cases hg : (y :: ys).getLast? with
            | none => exact absurd (List.getLast?_eq_none_iff.mp hg) (by simp)
            | some r => rfl
      · simp only [List.filter_cons, if_neg hid]
        cases hg : (rest.filter (fun r => r.id == k)).getLast? with
        | none =>
            exact mapSetById_filter_other m item k
              (fun hcon => hid (by simp [hcon]))
        | some r => rfl

/-- De-duplication keys each id to the last record of the merged sequence
bearing it. -/
theorem dedupeById_filter_id (items : List RouteAttestation) (k : String) :
    (dedupeById items).filter (fun r => r.id == k) =
      match (items.filter (fun r => r.id == k)).getLast? with
      | none => []
      | some r => [r] := by
  have h := foldl_mapSetById_filter k items [] (by simp)
  simpa [dedupeById] using h

/-- Every record surviving a Map set came from the Map or is the inserted
record. -/
theorem mapSetById_mem (m : List RouteAttestation) (item r : RouteAttestation)
    (h : r ∈ mapSetById m item) : r ∈ m ∨ r = item := by
  unfold mapSetById at h
  split at h
  · obtain ⟨x, hx, hxe⟩ := List.mem_map.mp h
    by_cases hid : (x.id == item.id) = true
    · rw [if_pos hid] at hxe
      exact Or.inr hxe.symm
    · rw [if_neg hid] at hxe
      exact Or.inl (hxe ▸ hx)
  · rcases List.mem_append.mp h with h2 | h2
    · exact Or.inl h2
    · exact Or.inr (by simpa using h2)

/-- Every record surviving the fold came from the initial Map or from the
folded sequence. -/
theorem foldl_mapSetById_mem :
    ∀ (items m : List RouteAttestation) (r : RouteAttestation),
      r ∈ items.foldl mapSetById m → r ∈ m ∨ r ∈ items
  | [], m, r => by simp
  | item :: rest, m, r => by
      intro h
      rcases foldl_mapSetById_mem rest (mapSetById m item) r h with h2 | h2
      · rcases mapSetById_mem m item r h2 with h3 | h3
        · exact Or.inl h3
        · exact Or.inr (by simp [h3])
      · exact Or.inr (by simp [h2])

/-- Every record listed for a business came from the repository's items for
that business or from the scoped overflow buffer. -/
theorem listByBusinessId_mem (repoList : String → List RouteAttestation)
    (localStore : List RouteAttestation) (b : String) (r : RouteAttestation)
    (hr : r ∈ listByBusinessId repoList localStore b) :
    r ∈ repoList b ∨ r ∈ localStore.filter (fun item => item.businessId == b) := by
  have h1 : r ∈ dedupeById (repoList b ++
      localStore.filter (fun item => item.businessId == b)) :=
    (List.perm_insertionSort attDesc _).mem_iff.mp hr
  rcases foldl_mapSetById_mem _ [] r h1 with h2 | h2
  · simp at h2
  · exact List.mem_append.mp h2

/-- Inserting a record into a list keeps the sublist of any fixed attestedAt
key, with the inserted record in front of its equals — the single-step core
of the sort's stability. -/
theorem orderedInsert_filter_key (t : String) (a : RouteAttestation) :
    ∀ l : List RouteAttestation,
      (List.orderedInsert attDesc a l).filter (fun r => r.attestedAt == t) =
        if a.attestedAt == t then a :: l.filter (fun r => r.attestedAt == t)
        else l.filter (fun r => r.attestedAt == t)
  | [] => by
      by_cases hat : (a.attestedAt == t) = true <;>
        simp [List.orderedInsert, List.filter_cons, hat]
  | b :: l2 => by
      have ih := orderedInsert_filter_key t a l2
      rw [List.orderedInsert]
      by_cases hab : attDesc a b
      · rw [if_pos hab]
        by_cases hat : (a.attestedAt == t) = true
        · simp only [List.filter_cons, if_pos hat]
        · simp only [List.filter_cons, if_neg hat]
      · rw [if_neg hab]
        have hlt : a.attestedAt < b.attestedAt :=
          not_le.mp (fun hc => hab hc)
        by_cases hbt : (b.attestedAt == t) = true
        · have hat : ¬ (a.attestedAt == t) = true := by
            have hne : a.attestedAt ≠ b.attestedAt := ne_of_lt hlt
            have hbt2 : b.attestedAt = t := by simpa using hbt
            simp [← hbt2, hne]
          simp only [List.filter_cons, if_pos hbt, if_neg hat, ih]
        · by_cases hat : (a.attestedAt == t) = true
          · simp only [List.filter_cons, if_neg hbt, if_pos hat, ih]
          · simp only [List.filter_cons, if_neg hbt, if_neg hat, ih]

/-- The insertion sort keeps the sublist of any fixed attestedAt key: ties
stay in input order. -/
theorem insertionSort_filter_key (t : String) :
    ∀ l : List RouteAttestation,
      (List.insertionSort attDesc l).filter (fun r => r.attestedAt == t) =
        l.filter (fun r => r.attestedAt == t)
  | [] => rfl
  | a :: l2 => by
      rw [List.insertionSort,
        orderedInsert_filter_key t a (List.insertionSort attDesc l2),
        insertionSort_filter_key t l2]
      by_cases hat : (a.attestedAt == t) = true
      · simp only [List.filter_cons, if_pos hat]
      · simp only [List.filter_cons, if_neg hat]

/-- C5: a listing is sorted by attestedAt descending, and the sort is
stable — for every timestamp t, the records carrying t appear in exactly the
order they hold in the de-duplicated merged sequence, i.e. their original
insertion order. -/
theorem list_sorted_and_stable (repoList : String → List RouteAttestation)
    (localStore : List RouteAttestation) (b : String) :
    List.Sorted attDesc (listByBusinessId repoList localStore b) ∧
      ∀ t : String,
        (listByBusinessId repoList localStore b).filter (fun r => r.attestedAt == t) =
          (dedupeById (repoList b ++
              localStore.filter (fun item => item.businessId == b))).filter
            (fun r => r.attestedAt == t) := by
  constructor
  · exact List.sorted_insertionSort attDesc _
  · intro t
    exact insertionSort_filter_key t _

/-- C4 counterexample: a store record and a buffer record share id att-7 but
differ in period; the listing keeps the buffer's version, not the store's. -/
theorem list_dedupe_keeps_buffer_not_store :
    listByBusinessId (fun _ => [storeVersionRec]) [bufferVersionRec] "biz-1" =
      [bufferVersionRec] ∧ bufferVersionRec ≠ storeVersionRec := by
  constructor
  · rfl
  · decide

/-- C4 amended: when the durable store and the in-memory overflow buffer both
contain a record with the same id, the de-duplicated result keeps the
buffer's version of that record — the later Map insertion wins, so the
buffer takes precedence on conflict. -/
theorem listByBusinessId_buffer_precedence
    (repoList : String → List RouteAttestation) (localStore : List RouteAttestation)
    (b : String) (t : RouteAttestation)
    (hlocal : (localStore.filter (fun item => item.businessId == b)).filter
        (fun x => x.id == t.id) = [t]) :
    t ∈ listByBusinessId repoList localStore b ∧
      ∀ r ∈ listByBusinessId repoList localStore b, r.id = t.id → r = t := by
  have hmerged : ((repoList b ++
      localStore.filter (fun item => item.businessId == b)).filter
        (fun x => x.id == t.id)).getLast? = some t := by
    rw [List.filter_append, hlocal, List.getLast?_append]
    simp
  have hdfilter : (dedupeById (repoList b ++
      localStore.filter (fun item => item.businessId == b))).filter
        (fun x => x.id == t.id) = [t] := by
    rw [dedupeById_filter_id, hmerged]
  constructor
  · refine (List.perm_insertionSort attDesc _).mem_iff.mpr ?_
    exact List.mem_of_mem_filter (p := fun x => x.id == t.id) (hdfilter ▸ List.mem_singleton_self t)
  · intro r hr hid
    have hrd : r ∈ dedupeById (repoList b ++
        localStore.filter (fun item => item.businessId == b)) :=
      (List.perm_insertionSort attDesc _).mem_iff.mp hr
    have hrf : r ∈ (dedupeById (repoList b ++
        localStore.filter (fun item => item.businessId == b))).filter
          (fun x => x.id == t.id) :=
      List.mem_filter.mpr ⟨hrd, by simp [hid]⟩
    rw [hdfilter] at hrf
    simpa using hrf

/-- Witness for C4 (amended): the concrete conflicting pair of records. -/
theorem listByBusinessId_buffer_precedence_witness :
    (([bufferVersionRec].filter (fun item => item.businessId == "biz-1")).filter
        (fun x => x.id == bufferVersionRec.id) = [bufferVersionRec]) ∧
      bufferVersionRec ∈
        listByBusinessId (fun _ => [storeVersionRec]) [bufferVersionRec] "biz-1" :=
  ⟨by decide,
    (listByBusinessId_buffer_precedence (fun _ => [storeVersionRec]) [bufferVersionRec]
      "biz-1" bufferVersionRec (by decide)).1⟩

/-- C8: a scoped lookup returns a record only when its businessId matches the
requesting business, and a record of a different business is answered as not
found, never returned — provided the repository scopes its listing to the
requested business. -/
theorem getById_tenant_isolation (repoGetById : Option (String → Option RouteAttestation))
    (repoList : String → List RouteAttestation) (localStore : List RouteAttestation)
    (id b : String) (r : RouteAttestation)
    (hrepo : ∀ x ∈ repoList b, x.businessId = b) :
    (getById repoGetById repoList localStore id b = some r → r.businessId = b) ∧
    (∀ getter found, repoGetById = some getter → getter id = some found →
       found.businessId ≠ b →
       getById repoGetById repoList localStore id b = none) := by
  constructor
  · intro h
    unfold getById at h
    split at h
    · split at h
      · exact Option.noConfusion h
      · split at h
        · rename_i hbiz
          cases h
          simpa using hbiz
        · exact Option.noConfusion h
    · have hmem := List.mem_of_find?_eq_some h
      rcases listByBusinessId_mem repoList localStore b r hmem with h2 | h2
      · exact hrepo r h2
      · have h3 := List.of_mem_filter h2
        simpa using h3
  · intro getter found hG hg hb
    subst hG
    have hred : getById (some getter) repoList localStore id b =
        match getter id with
        | none => none
        | some found =>
            if (found.businessId == b) = true then some found else none := rfl
    rw [hred, hg]
    exact if_neg (by simpa using hb)

/-- Witness for C8: a matching-tenant lookup that succeeds and a
foreign-tenant lookup answered none. -/
theorem getById_tenant_isolation_witness :
    (∀ x ∈ ([] : List RouteAttestation), x.businessId = "biz-1") ∧
    tenantRecSample.businessId = "biz-1" ∧
    getById (some (fun _ => some foreignRecSample)) (fun _ => []) [] "att-9" "biz-1" =
      none :=
  ⟨by simp,
    (getById_tenant_isolation none (fun _ => []) [tenantRecSample] "att-9" "biz-1"
      tenantRecSample (by simp)).1 (by decide),
    (getById_tenant_isolation (some (fun _ => some foreignRecSample)) (fun _ => []) []
      "att-9" "biz-1" foreignRecSample (by simp)).2
      (fun _ => some foreignRecSample) foreignRecSample rfl rfl (by decide)⟩

/-- The filtered total never exceeds totalPages pages of limit records
each. -/
theorem total_le_pages_mul (total limit : Nat) (hl : 1 ≤ limit) :
    total ≤ (max 1 ((total + limit - 1) / limit)) * limit := by
  have hdm := Nat.div_add_mod (total + limit - 1) limit
  have hmlt : (total + limit - 1) % limit < limit := Nat.mod_lt _ (by omega)
  generalize hq : (total + limit - 1) / limit = q at hdm
  generalize hm : (total + limit - 1) % limit = m at hdm hmlt
  rcases le_or_lt 1 q with hq1 | hq1
  · rw [Nat.max_eq_right hq1, Nat.mul_comm]
    obtain ⟨Q, hQ⟩ : ∃ Q, limit * q = Q := ⟨_, rfl⟩
    rw [hQ] at hdm ⊢
    omega
  · have hq0 : q = 0 := by omega
    subst hq0
    rw [Nat.max_eq_left (by omega), Nat.one_mul]
    omega

/-- C6: the list response reports totalPages = max(1, ceil(total / limit))
with total the size of the filtered set, and a page beyond that range
returns an empty item list while total and totalPages stay correct. -/
theorem list_pagination_shape (repoList : String → List RouteAttestation)
    (localStore : List RouteAttestation) (b : String) (period : Option String)
    (status : Option AttestationStatus) (page limit : Nat)
    (hpage : 1 ≤ page) (hlimit : 1 ≤ limit) :
    (listAttestations repoList localStore b period status page limit).total =
      (applyFilters period status (listByBusinessId repoList localStore b)).length ∧
    (listAttestations repoList localStore b period status page limit).totalPages =
      max 1 (((applyFilters period status (listByBusinessId repoList localStore b)).length
        + limit - 1) / limit) ∧
    ((listAttestations repoList localStore b period status page limit).totalPages < page →
      (listAttestations repoList localStore b period status page limit).items = []) := by
  refine ⟨rfl, rfl, fun hbeyond => ?_⟩
  show ((applyFilters period status (listByBusinessId repoList localStore b)).drop
      ((page - 1) * limit)).take limit = []
  have h1 := total_le_pages_mul
    (applyFilters period status (listByBusinessId repoList localStore b)).length
    limit hlimit
  have h2 : (max 1 (((applyFilters period status
        (listByBusinessId repoList localStore b)).length + limit - 1) / limit)) * limit ≤
      (page - 1) * limit :=
    Nat.mul_le_mul_right _ (Nat.le_pred_of_lt hbeyond)
  rw [List.drop_eq_nil_of_le (le_trans h1 h2), List.take_nil]

/-- Witness for C6: an empty data set queried at page 5, limit 20. -/
theorem list_pagination_shape_witness :
    1 ≤ 5 ∧ 1 ≤ 20 ∧
    ((listAttestations (fun _ => []) [] "biz-1" none none 5 20).total =
      (applyFilters none none (listByBusinessId (fun _ => []) [] "biz-1")).length ∧
    (listAttestations (fun _ => []) [] "biz-1" none none 5 20).totalPages =
      max 1 (((applyFilters none none (listByBusinessId (fun _ => []) [] "biz-1")).length
        + 20 - 1) / 20) ∧
    ((listAttestations (fun _ => []) [] "biz-1" none none 5 20).totalPages < 5 →
      (listAttestations (fun _ => []) [] "biz-1" none none 5 20).items = [])) :=
  ⟨by decide, by decide,
    list_pagination_shape (fun _ => []) [] "biz-1" none none 5 20 (by decide) (by decide)⟩

/-- Concatenating the page windows 1..k reproduces the first k times limit
records. -/
theorem join_pages (l : List RouteAttestation) (limit : Nat) :
    ∀ k : Nat, ((List.range k).map (fun p => (l.drop (p * limit)).take limit)).flatten =
      l.take (k * limit)
  | 0 => by simp
  | k + 1 => by
      rw [List.range_succ, List.map_append, List.flatten_append, join_pages l limit k]
      simp only [List.map_cons, List.map_nil, List.flatten_cons, List.flatten_nil,
        List.append_nil]
      rw [Nat.succ_mul, List.take_add]

/-- C7: for a fixed filter and business, concatenating the item lists of
pages 1 through totalPages at a fixed limit reproduces exactly the full
filtered, sorted record set — no duplicate, no omission. -/
theorem pagination_completeness (repoList : String → List RouteAttestation)
    (localStore : List RouteAttestation) (b : String) (period : Option String)
    (status : Option AttestationStatus) (limit : Nat) (hlimit : 1 ≤ limit) :
    ((List.range
        (listAttestations repoList localStore b period status 1 limit).totalPages).map
      (fun k =>
        (listAttestations repoList localStore b period status (k + 1) limit).items)).flatten
      = applyFilters period status (listByBusinessId repoList localStore b) := by
  have heq : (fun k =>
      (listAttestations repoList localStore b period status (k + 1) limit).items) =
      fun k => ((applyFilters period status
        (listByBusinessId repoList localStore b)).drop (k * limit)).take limit := by
    funext k
    rfl
  rw [heq, join_pages]
  apply List.take_of_length_le
  exact total_le_pages_mul
    (applyFilters period status (listByBusinessId repoList localStore b)).length
    limit hlimit

/-- Witness for C7: a two-record data set paged at limit 1. -/
theorem pagination_completeness_witness :
    1 ≤ 1 ∧
    ((List.range
        (listAttestations (fun _ => [tenantRecSample]) [revSample] "biz-1" none none
          1 1).totalPages).map
      (fun k =>
        (listAttestations (fun _ => [tenantRecSample]) [revSample] "biz-1" none none
          (k + 1) 1).items)).flatten
      = applyFilters none none
          (listByBusinessId (fun _ => [tenantRecSample]) [revSample] "biz-1") :=
  ⟨by decide,
    pagination_completeness (fun _ => [tenantRecSample]) [revSample] "biz-1" none none 1
      (by decide)⟩

end Veritasor
